import Mathlib

/-!
Shallow embedding of the progression and combat-resolution core of the
bevy-jam-04 game (src/game.rs): level/XP thresholds, health arithmetic,
perk catalog eligibility and random choice, secondary-action slot, and the
per-tick collision resolver.

Conventions of the embedding:
* Rust `u64` fields are modelled as `ℕ`; all values reachable in the claims
  stay far below `2^64`, so wrap-around never matters. `u64::saturating_sub`
  is `ℕ` subtraction (both are truncated at zero).
* Rust `f64` arithmetic on the multiplier `1.5` and on `1.1` is modelled in
  `ℚ`. `1.5` is exactly representable in binary floating point and the
  products involved are exact at the magnitudes the claims touch, and
  `f64::round` (round half away from zero) agrees with Mathlib's `round`
  (round half up) on nonnegative values, so the `ℚ` model coincides with the
  `f64` computation at every input appearing here.
* ECS resources mutated by a system become explicit state records threaded
  through functions; engine collaborators (audio, physics impulses,
  animation) are out of the model, as the spec declares them external.
-/

/-- Source constant `NEXT_LEVEL_ADDITIONAL_XP_MULTIPLIER: f64 = 1.5`. -/
def NEXT_LEVEL_ADDITIONAL_XP_MULTIPLIER : ℚ := 1.5

/-- Source constant `STARTING_XP_THRESHOLD: u64 = 5`. -/
def STARTING_XP_THRESHOLD : ℕ := 5

/-- Source constant `STARTING_HEALTH: u64 = 100`. -/
def STARTING_HEALTH : ℕ := 100

/-- Resource `Level` from src/game.rs. -/
structure Level where
  current_level : ℕ
  current_xp : ℕ
  previous_xp_needed : ℕ
  xp_needed : ℕ
  deriving DecidableEq, Repr

/-- Embedding of `Level::advance` (src/game.rs lines 587-595):
`current_level += 1`, then the XP gap of the level just cleared is scaled by
the 1.5 multiplier, rounded, and added onto the threshold. -/
def Level.advance (l : Level) : Level :=
  let xp_since_last_level := l.xp_needed - l.previous_xp_needed
  let additional_xp_needed : ℚ :=
    (xp_since_last_level : ℚ) * NEXT_LEVEL_ADDITIONAL_XP_MULTIPLIER
  { l with
    current_level := l.current_level + 1
    previous_xp_needed := l.xp_needed
    xp_needed := l.xp_needed + (round additional_xp_needed).toNat }

/-- Embedding of `level.current_xp += n` (the XP grant in `kill_enemy`). -/
def Level.add_xp (l : Level) (n : ℕ) : Level :=
  { l with current_xp := l.current_xp + n }

/-- Starting `Level` resource from `insert_starting_resources`
(src/game.rs lines 257-262). -/
def initialLevel : Level :=
  { current_level := 1
    current_xp := 0
    previous_xp_needed := 0
    xp_needed := STARTING_XP_THRESHOLD }

/-- Fuelled form of the `while level.current_xp >= level.xp_needed` loop at
the top of `update_level_display` (src/game.rs lines 1849-1854). The fuel
only bounds the iteration count; `levelUpLoop_eq_iterate` below shows the
fuel used by `update_level_display` is never exhausted on states satisfying
the reachable-state invariant, so this equals the Rust while loop there. -/
def levelUpLoop : ℕ → Level → Level
  | 0, l => l
  | fuel + 1, l =>
    if l.xp_needed ≤ l.current_xp then levelUpLoop fuel l.advance else l

/-- Level-up evaluation part of the `update_level_display` system: run the
advance loop to completion (the display writes themselves are UI, out of
model). One `LevelUp` event is sent per `advance`, so events sent equal the
increase in `current_level`. -/
def update_level_display (l : Level) : Level :=
  levelUpLoop (l.current_xp + 1) l

/-- XP threshold guarding the (k+1)-st level-up, read off the k-fold
iterate of `Level.advance` from the starting resource. -/
def thresholdAt (k : ℕ) : ℕ :=
  (Level.advance^[k] initialLevel).xp_needed

/-- One simulation tick's worth of progression: all XP granted during the
tick coalesces into one `add_xp`, then the level-up evaluation runs. -/
def progressionTick (l : Level) (x : ℕ) : Level :=
  update_level_display (l.add_xp x)

/-- Progression across a session: a sequence of per-tick XP grants applied
to the starting resource. -/
def processTicks (xs : List ℕ) : Level :=
  xs.foldl progressionTick initialLevel

/-- Invariant of every `Level` state reachable from the starting resource:
the previous threshold lies strictly below the current one. -/
def Level.Inv (l : Level) : Prop :=
  l.previous_xp_needed < l.xp_needed

instance (l : Level) : Decidable l.Inv := by
  unfold Level.Inv; infer_instance

/-- Computational mirror of `levelUpLoop` in pure `ℕ` arithmetic, used so
that concrete runs kernel-evaluate (the `ℚ` rounding in `Level.advance`
does not reduce); `levelUpLoop_eq_loopN` proves it coincides. -/
def levelUpLoopN : ℕ → Level → Level
  | 0, l => l
  | fuel + 1, l =>
    if l.xp_needed ≤ l.current_xp then
      levelUpLoopN fuel
        { current_level := l.current_level + 1
          current_xp := l.current_xp
          previous_xp_needed := l.xp_needed
          xp_needed := l.xp_needed + (3 * (l.xp_needed - l.previous_xp_needed) + 1) / 2 }
    else l

/-- Resource `Health` from src/game.rs (both fields are `u64`). -/
structure Health where
  current_health : ℕ
  max_health : ℕ
  deriving DecidableEq, Repr

/-- Enemy-hits-player damage from the `collisions` system (src/game.rs line
1763): `health.current_health.saturating_sub(enemy.damage)`; `ℕ`
subtraction is exactly `u64::saturating_sub`. -/
def Health.applyEnemyHit (h : Health) (damage : ℕ) : Health :=
  { h with current_health := h.current_health - damage }

/-- Embedding of `activate_heal` (src/game.rs): sets current to max. -/
def activate_heal (h : Health) : Health :=
  { h with current_health := h.max_health }

/-- Tick body of the `health_regen` system (src/game.rs lines 2072-2086)
when the regen timer just finished:
`health.max_health.min(health.current_health + amount)`. -/
def Health.regenTick (h : Health) (amount : ℕ) : Health :=
  { h with current_health := min h.max_health (h.current_health + amount) }

/-- Embedding of `activate_higher_max_health` (src/game.rs lines
2173-2179). The source's `f64` computation is modelled in `ℚ`: `1.1` and
the division are exact there; on the inputs the claims exercise, the `f64`
and `ℚ` results coincide. Note `new_current_health` is computed from the
un-rounded new max, as the source does, and `as u64` on the nonnegative
rounded values is `Int.toNat`. When `max_health = 0` the source divides 0
by 0 (`f64` NaN, cast to 0); `ℚ` division by zero is 0 as well. -/
def activate_higher_max_health (h : Health) : Health :=
  let current_health_fraction : ℚ := (h.current_health : ℚ) / (h.max_health : ℚ)
  let new_max_health : ℚ := (h.max_health : ℚ) * 1.1
  let new_current_health : ℚ := new_max_health * current_health_fraction
  { current_health := (round new_current_health).toNat
    max_health := (round new_max_health).toNat }

/-- Operations that write `Health.current_health` anywhere in src/game.rs:
the enemy-vs-player collision branch, the Heal perk, a finished
health-regen tick, and the HigherMaxHealth perk. -/
inductive HealthOp where
  | enemyHit (damage : ℕ)
  | heal
  | regenTick (amount : ℕ)
  | higherMaxHealth
  deriving DecidableEq, Repr

def applyHealthOp (h : Health) : HealthOp → Health
  | .enemyHit d => h.applyEnemyHit d
  | .heal => activate_heal h
  | .regenTick a => h.regenTick a
  | .higherMaxHealth => activate_higher_max_health h

/-- Engine countdown timer as configured by the secondary-action perks:
mode, duration and elapsed in milliseconds. -/
structure TimerModel where
  isRepeating : Bool
  duration_ms : ℕ
  elapsed_ms : ℕ
  deriving DecidableEq, Repr

/-- Component `SecondaryActionType` from src/game.rs (lines 646-657). -/
inductive SecondaryActionType where
  | none
  | grenade (cooldown_timer : TimerModel) (explosion_radius : ℚ)
  | teleport (cooldown_timer : TimerModel) (explodes : Bool) (explosion_radius : ℚ)
  deriving DecidableEq

/-- Embedding of `activate_unlock_grenade` (src/game.rs lines 2185-2193):
a fresh one-shot 5000 ms timer with elapsed set to its duration (ready to
fire), radius 30; the previous slot value is overwritten unconditionally. -/
def activate_unlock_grenade (_secondary_action : SecondaryActionType) :
    SecondaryActionType :=
  SecondaryActionType.grenade
    { isRepeating := false, duration_ms := 5000, elapsed_ms := 5000 } 30

/-- Embedding of `activate_unlock_teleport` (src/game.rs lines 2216-2225):
a fresh one-shot 5000 ms timer with elapsed set to its duration, explodes
false, radius 0; the previous slot value is overwritten unconditionally. -/
def activate_unlock_teleport (_secondary_action : SecondaryActionType) :
    SecondaryActionType :=
  SecondaryActionType.teleport
    { isRepeating := false, duration_ms := 5000, elapsed_ms := 5000 } false 0

/-- Enum `PerkType` from src/game.rs (lines 361-380), in declaration
order (the order `EnumIter` iterates in). -/
inductive PerkType where
  | LongerSword
  | WiderSwordSwing
  | ShorterAttackCooldown
  | HigherMaxSpeed
  | HigherMaxHealth
  | Heal
  | UnlockGrenade
  | LargerGrenadeExplosion
  | ShorterGrenadeCooldown
  | UnlockTeleport
  | ShorterTeleportCooldown
  | UnlockTeleportExplosion
  | LargerTeleportExplosion
  | UnlockHealthRegen
  | FasterHealthRegen
  | Retaliate
  | SlowerEnemies
  deriving DecidableEq, Repr

/-- The full enumeration `PerkType::iter()` in source order. -/
def PerkType.all : List PerkType :=
  [.LongerSword, .WiderSwordSwing, .ShorterAttackCooldown, .HigherMaxSpeed,
   .HigherMaxHealth, .Heal, .UnlockGrenade, .LargerGrenadeExplosion,
   .ShorterGrenadeCooldown, .UnlockTeleport, .ShorterTeleportCooldown,
   .UnlockTeleportExplosion, .LargerTeleportExplosion, .UnlockHealthRegen,
   .FasterHealthRegen, .Retaliate, .SlowerEnemies]

/-- Eligibility filter inside `PerkType::choose_random_perk_types`
(src/game.rs lines 384-405). The `UnlockGrenade` arm is the source's
hard-coded `false` (the commented-out `!has_grenade` is not live code). -/
def validPerkTypes (existing_perks : Finset PerkType) : List PerkType :=
  let has_grenade := decide (PerkType.UnlockGrenade ∈ existing_perks)
  let has_teleport := decide (PerkType.UnlockTeleport ∈ existing_perks)
  let has_teleport_explosion := decide (PerkType.UnlockTeleportExplosion ∈ existing_perks)
  let has_health_regen := decide (PerkType.UnlockHealthRegen ∈ existing_perks)
  let has_retaliate := decide (PerkType.Retaliate ∈ existing_perks)
  PerkType.all.filter fun perk_type =>
    match perk_type with
    | .UnlockGrenade => false
    | .LargerGrenadeExplosion => has_grenade
    | .ShorterGrenadeCooldown => has_grenade
    | .UnlockTeleport => !has_teleport
    | .ShorterTeleportCooldown => has_teleport
    | .UnlockTeleportExplosion => has_teleport && !has_teleport_explosion
    | .LargerTeleportExplosion => has_teleport_explosion
    | .UnlockHealthRegen => !has_health_regen
    | .FasterHealthRegen => has_health_regen
    | .Retaliate => !has_retaliate
    | _ => true

/-- Model of rand's `IteratorRandom::choose_multiple` with an injected
random stream `rng`: the first `amount` items fill the buffer, then each
later item (the `i`-th after the fill, at overall position `amount + i`)
replaces buffer slot `rng i % (amount + i + 1)` when that pick lands
inside the buffer (reservoir sampling). When the source yields at most
`amount` items, the buffer is exactly all of them. -/
def choose_multiple {α : Type} (rng : ℕ → ℕ) (items : List α) (amount : ℕ) :
    List α :=
  (items.drop amount).enum.foldl
    (fun buf ix =>
      let k := rng ix.1 % (amount + ix.1 + 1)
      if k < amount then buf.set k ix.2 else buf)
    (items.take amount)

/-- Embedding of `PerkType::choose_random_perk_types`: filter the full
enumeration by eligibility, then sample `amount` of them. -/
def choose_random_perk_types (rng : ℕ → ℕ) (amount : ℕ)
    (existing_perks : Finset PerkType) : List PerkType :=
  choose_multiple rng (validPerkTypes existing_perks) amount

/-- Perk-ownership sets reachable through level-ups: the player starts with
`Perks(HashSet::new())` and `choose_perk` inserts only perks offered by
`choose_random_perk_types` (src/game.rs lines 860, 2016, 2059). -/
inductive ReachablePerks : Finset PerkType → Prop where
  | init : ReachablePerks ∅
  | step (s : Finset PerkType) (rng : ℕ → ℕ) (amount : ℕ) (p : PerkType) :
      ReachablePerks s → p ∈ choose_random_perk_types rng amount s →
      ReachablePerks (insert p s)

/-- Component `Enemy` from src/game.rs (lines 682-687); `max_speed` is an
`f32` irrelevant to combat resolution, carried as `ℚ`. -/
structure Enemy where
  damage : ℕ
  xp_reward : ℕ
  max_speed : ℚ
  deriving DecidableEq

/-- Component `Sword` from src/game.rs (lines 674-677). -/
structure Sword where
  active : Bool
  deriving DecidableEq, Repr

/-- Marker component `Explosion` from src/game.rs (line 711). -/
structure Explosion where
  deriving DecidableEq, Repr

/-- Read-only view of the queries the `collisions` system takes: which
entities (ids as `ℕ`) carry which components. `players` merges the
`Player` marker with that entity's `Retaliate` flag, the only player data
the resolver branches on (its Transform/ExternalImpulse knockback is
physics, out of model). -/
structure CombatWorld where
  enemies : ℕ → Option Enemy
  swords : ℕ → Option Sword
  explosions : ℕ → Option Explosion
  players : ℕ → Option Bool

/-- The mutable resources the `collisions` system writes:
`EntitiesToDespawn`, `Level` (via XP), `Health`, and the slow-mo timer
(abstracted to whether the sword-hit branch retriggered it); sound cues
are fire-and-forget audio, out of model. -/
structure CombatState where
  entities_to_despawn : List ℕ
  level : Level
  health : Health
  slow_mo_triggered : Bool
  deriving DecidableEq

/-- Collision notifications delivered by the physics collaborator; the
`collisions` system only acts on `Started`. -/
inductive CollisionEvent where
  | started (a b : ℕ)
  | stopped (a b : ℕ)
  deriving DecidableEq, Repr

/-- Embedding of `get_from_either` (src/game.rs lines 1806-1820): probe
entity `a` then entity `b` for a component. -/
def get_from_either {T : Type} (a b : ℕ) (query : ℕ → Option T) :
    Option (T × ℕ) :=
  match query a with
  | some t => some (t, a)
  | Option.none =>
    match query b with
    | some t => some (t, b)
    | Option.none => Option.none

/-- Embedding of `kill_enemy` (src/game.rs lines 1822-1833): queue the
enemy for despawn and award its XP (the hit sound is out of model). -/
def kill_enemy (enemy : Enemy) (enemy_entity : ℕ) (st : CombatState) :
    CombatState :=
  { st with
    entities_to_despawn := st.entities_to_despawn ++ [enemy_entity]
    level := st.level.add_xp enemy.xp_reward }

/-- Per-event body of the `collisions` system (src/game.rs lines
1714-1803): only `Started` pairs involving an enemy are processed; enemies
already queued for despawn are skipped; then explosion, sword (only while
active, retriggering slow-mo), and player (saturating damage, plus
retaliate kill) branches in source order. -/
def processEvent (w : CombatWorld) (st : CombatState) :
    CollisionEvent → CombatState
  | .stopped _ _ => st
  | .started a b =>
    match get_from_either a b w.enemies with
    | Option.none => st
    | some (enemy, enemy_entity) =>
      if enemy_entity ∈ st.entities_to_despawn then st
      else
        match get_from_either a b w.explosions with
        | some _ => kill_enemy enemy enemy_entity st
        | Option.none =>
          match get_from_either a b w.swords with
          | some (sword, _) =>
            if sword.active then
              { kill_enemy enemy enemy_entity st with slow_mo_triggered := true }
            else st
          | Option.none =>
            match get_from_either a b w.players with
            | some (retaliate, _) =>
              let st' := { st with health :=
                st.health.applyEnemyHit enemy.damage }
              if retaliate then kill_enemy enemy enemy_entity st' else st'
            | Option.none => st

/-- One tick's collision processing: the `collisions` system folds over the
tick's event list. -/
def processEvents (w : CombatWorld) (st : CombatState)
    (events : List CollisionEvent) : CombatState :=
  events.foldl (processEvent w) st

/-- XP reward the world associates to an entity (0 for non-enemies). -/
def rewardOf (w : CombatWorld) (e : ℕ) : ℕ :=
  match w.enemies e with
  | some enemy => enemy.xp_reward
  | Option.none => 0

/-- Combat-relevant starting resources from `insert_starting_resources`:
empty despawn queue, initial level, full starting health, slow-mo idle. -/
def startingCombatState : CombatState :=
  { entities_to_despawn := []
    level := initialLevel
    health := { current_health := STARTING_HEALTH, max_health := STARTING_HEALTH }
    slow_mo_triggered := false }

/-- Concrete world for witnesses: enemy (id 1, damage 5, xp 2), a sword
(id 2) whose active flag is the parameter, a player (id 3), no explosion. -/
def swordWorld (active : Bool) : CombatWorld :=
  { enemies := fun e =>
      if e = 1 then some { damage := 5, xp_reward := 2, max_speed := 20 } else Option.none
    swords := fun e => if e = 2 then some { active := active } else Option.none
    explosions := fun _ => Option.none
    players := fun e => if e = 3 then some false else Option.none }

theorem round_three_halves (x : ℕ) :
    (round ((x : ℚ) * (3 / 2))).toNat = (3 * x + 1) / 2 := by
  rcases Nat.even_or_odd x with ⟨k, hk⟩ | ⟨k, hk⟩
  · subst hk
    have h : ((k + k : ℕ) : ℚ) * (3 / 2) = ((3 * k : ℕ) : ℚ) := by
      push_cast; ring
    rw [h, round_natCast]
    omega
  · subst hk
    have h : ((2 * k + 1 : ℕ) : ℚ) * (3 / 2) = ((3 * k + 1 : ℕ) : ℚ) + 1 / 2 := by
      push_cast; ring
    have h2 : ((3 * k + 1 : ℕ) : ℚ) + 1 / 2 + 1 / 2 = ((3 * k + 2 : ℕ) : ℚ) := by
      push_cast; ring
    rw [h, round_eq, h2, Int.floor_natCast]
    omega

/-- Closed `ℕ` form of `Level.advance`: the rounded `f64` threshold bump
equals `(3 * gap + 1) / 2` in natural-number arithmetic. -/
theorem Level.advance_eq (l : Level) :
    l.advance =
      { current_level := l.current_level + 1
        current_xp := l.current_xp
        previous_xp_needed := l.xp_needed
        xp_needed := l.xp_needed + (3 * (l.xp_needed - l.previous_xp_needed) + 1) / 2 } := by
  have h15 : NEXT_LEVEL_ADDITIONAL_XP_MULTIPLIER = 3 / 2 := by
    unfold NEXT_LEVEL_ADDITIONAL_XP_MULTIPLIER; norm_num
  simp only [Level.advance, h15, round_three_halves]

theorem advance_sanity :
    initialLevel.advance =
      { current_level := 2, current_xp := 0, previous_xp_needed := 5, xp_needed := 13 } := by
  rw [Level.advance_eq]; rfl

theorem levelUpLoop_eq_loopN : ∀ (fuel : ℕ) (l : Level),
    levelUpLoop fuel l = levelUpLoopN fuel l := by
  intro fuel
  induction fuel with
  | zero => intro l; rfl
  | succ n ih =>
    intro l
    rw [levelUpLoop, levelUpLoopN]
    by_cases h : l.xp_needed ≤ l.current_xp
    · rw [if_pos h, if_pos h, ih, Level.advance_eq]
    · rw [if_neg h, if_neg h]

theorem Level.add_xp_add (l : Level) (m n : ℕ) :
    (l.add_xp m).add_xp n = l.add_xp (m + n) := by
  simp [Level.add_xp, Nat.add_assoc]

theorem Level.add_xp_zero (l : Level) : l.add_xp 0 = l := by
  simp [Level.add_xp]

theorem Level.advance_add_xp (l : Level) (n : ℕ) :
    (l.add_xp n).advance = l.advance.add_xp n := by
  rw [Level.advance_eq, Level.advance_eq]
  simp [Level.add_xp]

theorem iterate_advance_add_xp (k : ℕ) (l : Level) (n : ℕ) :
    Level.advance^[k] (l.add_xp n) = (Level.advance^[k] l).add_xp n := by
  induction k generalizing l with
  | zero => simp
  | succ k ih =>
    rw [Function.iterate_succ_apply, Function.iterate_succ_apply,
      Level.advance_add_xp, ih]

theorem iterate_advance_current_xp (k : ℕ) (l : Level) :
    (Level.advance^[k] l).current_xp = l.current_xp := by
  induction k generalizing l with
  | zero => simp
  | succ k ih =>
    rw [Function.iterate_succ_apply, ih]
    rfl

theorem iterate_advance_current_level (k : ℕ) (l : Level) :
    (Level.advance^[k] l).current_level = l.current_level + k := by
  induction k generalizing l with
  | zero => simp
  | succ k ih =>
    rw [Function.iterate_succ_apply, ih]
    have h : l.advance.current_level = l.current_level + 1 := rfl
    omega

theorem Level.advance_inv {l : Level} (h : l.Inv) : l.advance.Inv := by
  unfold Level.Inv at h ⊢
  rw [Level.advance_eq]
  simp only
  omega

theorem Level.advance_xp_needed {l : Level} (h : l.Inv) :
    l.xp_needed + 2 ≤ l.advance.xp_needed := by
  unfold Level.Inv at h
  rw [Level.advance_eq]
  simp only
  omega

theorem Level.add_xp_inv (l : Level) (n : ℕ) : (l.add_xp n).Inv ↔ l.Inv := by
  simp [Level.add_xp, Level.Inv]

theorem inv_iterate (k : ℕ) : (Level.advance^[k] initialLevel).Inv := by
  induction k with
  | zero => simp; decide
  | succ k ih =>
    rw [Function.iterate_succ_apply']
    exact Level.advance_inv ih

theorem thresholdAt_succ_ge (k : ℕ) : thresholdAt k + 2 ≤ thresholdAt (k + 1) := by
  unfold thresholdAt
  rw [Function.iterate_succ_apply']
  exact Level.advance_xp_needed (inv_iterate k)

theorem thresholdAt_strictMono : StrictMono thresholdAt :=
  strictMono_nat_of_lt_succ fun n => by have := thresholdAt_succ_ge n; omega

theorem thresholdAt_lower (k : ℕ) : 2 * k + 5 ≤ thresholdAt k := by
  induction k with
  | zero => unfold thresholdAt; simp [initialLevel, STARTING_XP_THRESHOLD]
  | succ k ih => have := thresholdAt_succ_ge k; omega

/-- The fuelled loop, given enough fuel, runs `advance` exactly up to the
first iterate whose threshold exceeds the (constant) current XP. -/
theorem levelUpLoop_eq_iterate : ∀ (fuel : ℕ) (l : Level), l.Inv →
    l.current_xp < l.xp_needed + fuel →
    ∃ m, levelUpLoop fuel l = Level.advance^[m] l ∧
      l.current_xp < (Level.advance^[m] l).xp_needed ∧
      ∀ j, j < m → (Level.advance^[j] l).xp_needed ≤ l.current_xp := by
  intro fuel
  induction fuel with
  | zero =>
    intro l _ hfuel
    exact ⟨0, rfl, by simpa using hfuel, fun j hj => absurd hj (Nat.not_lt_zero j)⟩
  | succ n ih =>
    intro l hinv hfuel
    rw [levelUpLoop]
    by_cases hg : l.xp_needed ≤ l.current_xp
    · rw [if_pos hg]
      have hinv' : l.advance.Inv := Level.advance_inv hinv
      have hxp : l.advance.current_xp = l.current_xp := rfl
      have hfuel' : l.advance.current_xp < l.advance.xp_needed + n := by
        have := Level.advance_xp_needed hinv
        omega
      obtain ⟨m, hloop, hpost, hmin⟩ := ih l.advance hinv' hfuel'
      refine ⟨m + 1, ?_, ?_, ?_⟩
      · rw [hloop, Function.iterate_succ_apply]
      · rw [Function.iterate_succ_apply]
        rw [hxp] at hpost
        exact hpost
      · intro j hj
        match j with
        | 0 => simpa using hg
        | j' + 1 =>
          rw [Function.iterate_succ_apply]
          have := hmin j' (by omega)
          rw [hxp] at this
          exact this
    · rw [if_neg hg]
      exact ⟨0, rfl, by simpa using Nat.lt_of_not_le hg,
        fun j hj => absurd hj (Nat.not_lt_zero j)⟩

/-- Spec of the level-up evaluation: on any state satisfying the invariant
it advances to the first iterate whose threshold exceeds the current XP; in
particular the fuel of `update_level_display` always suffices. -/
theorem update_level_display_spec (l : Level) (h : l.Inv) :
    ∃ m, update_level_display l = Level.advance^[m] l ∧
      l.current_xp < (Level.advance^[m] l).xp_needed ∧
      ∀ j, j < m → (Level.advance^[j] l).xp_needed ≤ l.current_xp := by
  exact levelUpLoop_eq_iterate (l.current_xp + 1) l h (by omega)

/-- Running ticks from any reachable progression point lands on the least
iterate of `advance` whose threshold exceeds the accumulated XP. -/
theorem foldl_progressionTick_spec : ∀ (xs : List ℕ) (m X : ℕ),
    X < thresholdAt m → (∀ j, j < m → thresholdAt j ≤ X) →
    ∃ m', xs.foldl progressionTick ((Level.advance^[m] initialLevel).add_xp X) =
        (Level.advance^[m'] initialLevel).add_xp (X + xs.sum) ∧
      X + xs.sum < thresholdAt m' ∧
      ∀ j, j < m' → thresholdAt j ≤ X + xs.sum := by
  intro xs
  induction xs with
  | nil =>
    intro m X hX hmin
    exact ⟨m, by simp, by simpa using hX, by simpa using hmin⟩
  | cons x xs ih =>
    intro m X hX hmin
    rw [List.foldl_cons]
    have hstep : progressionTick ((Level.advance^[m] initialLevel).add_xp X) x =
        update_level_display ((Level.advance^[m] initialLevel).add_xp (X + x)) := by
      rw [progressionTick, Level.add_xp_add]
    rw [hstep]
    have hinv : ((Level.advance^[m] initialLevel).add_xp (X + x)).Inv :=
      (Level.add_xp_inv _ _).mpr (inv_iterate m)
    obtain ⟨d, hloop, hpost, hminloop⟩ := update_level_display_spec _ hinv
    have hxp0 : (Level.advance^[m] initialLevel).current_xp = 0 := by
      rw [iterate_advance_current_xp]
      rfl
    have hxpval : ((Level.advance^[m] initialLevel).add_xp (X + x)).current_xp = X + x := by
      simp [Level.add_xp, hxp0]
    have hcomm : ∀ j : ℕ, Level.advance^[j] ((Level.advance^[m] initialLevel).add_xp (X + x)) =
        (Level.advance^[j + m] initialLevel).add_xp (X + x) := by
      intro j
      rw [iterate_advance_add_xp, ← Function.iterate_add_apply]
    rw [hcomm d] at hloop hpost
    rw [hxpval] at hpost hminloop
    have hneed : ((Level.advance^[d + m] initialLevel).add_xp (X + x)).xp_needed =
        thresholdAt (d + m) := rfl
    have hthr : X + x < thresholdAt (d + m) := by
      rw [hneed] at hpost
      exact hpost
    have hminall : ∀ j, j < d + m → thresholdAt j ≤ X + x := by
      intro j hj
      by_cases hjm : j < m
      · exact Nat.le_trans (hmin j hjm) (by omega)
      · have hj' : j - m < d := by omega
        have := hminloop (j - m) hj'
        rw [hcomm (j - m)] at this
        have hrw : j - m + m = j := by omega
        rw [hrw] at this
        exact this
    rw [hloop]
    obtain ⟨m', hfold, hpost', hmin'⟩ := ih (d + m) (X + x) hthr hminall
    have hs : (x :: xs).sum = x + xs.sum := List.sum_cons
    refine ⟨m', ?_, ?_, ?_⟩
    · rw [hfold, hs]
      congr 1
      omega
    · rw [hs]
      omega
    · intro j hj
      have := hmin' j hj
      rw [hs]
      omega

/-- Full-session characterization: after any sequence of per-tick XP
grants, the progression state is exactly the least-threshold iterate. -/
theorem processTicks_spec (xs : List ℕ) :
    ∃ m, processTicks xs = (Level.advance^[m] initialLevel).add_xp xs.sum ∧
      xs.sum < thresholdAt m ∧
      ∀ j, j < m → thresholdAt j ≤ xs.sum := by
  have h0 : initialLevel = (Level.advance^[0] initialLevel).add_xp 0 := by
    simp [Level.add_xp_zero]
  have hthr0 : (0 : ℕ) < thresholdAt 0 := by
    unfold thresholdAt
    simp [initialLevel, STARTING_XP_THRESHOLD]
  obtain ⟨m, hfold, hpost, hmin⟩ :=
    foldl_progressionTick_spec xs 0 0 hthr0 (fun j hj => absurd hj (Nat.not_lt_zero j))
  rw [← h0] at hfold
  exact ⟨m, by simpa using hfold, by simpa using hpost, by simpa using hmin⟩

/-- Counting form of minimality: the index of the reached iterate is the
number of thresholds that the accumulated XP has crossed. -/
theorem threshold_count_eq (X m : ℕ)
    (hmin : ∀ j, j < m → thresholdAt j ≤ X) (hpost : X < thresholdAt m) :
    ((Finset.range (X + 1)).filter (fun k => thresholdAt k ≤ X)).card = m := by
  have hiff : ∀ j, thresholdAt j ≤ X ↔ j < m := by
    intro j
    constructor
    · intro h
      by_contra hge
      push_neg at hge
      have hmono : thresholdAt m ≤ thresholdAt j := thresholdAt_strictMono.monotone hge
      omega
    · exact hmin j
  have hle : m ≤ X + 1 := by
    rcases Nat.eq_zero_or_pos m with h0 | hpos
    · omega
    · have h1 := hmin (m - 1) (by omega)
      have h2 := thresholdAt_lower (m - 1)
      omega
  have hset : (Finset.range (X + 1)).filter (fun k => thresholdAt k ≤ X) =
      Finset.range m := by
    ext j
    simp only [Finset.mem_filter, Finset.mem_range, hiff j]
    omega
  rw [hset, Finset.card_range]

/-- C1: after the per-tick level-up evaluation the loop's postcondition
`current_xp < xp_needed` holds, and over any sequence of XP grants
`current_level` is 1 plus the number of thresholds crossed by the total XP
(multi-level jumps from a single large grant included). The range bound
`xs.sum + 1` covers every crossable threshold since `thresholdAt k ≥ 2k+5`. -/
theorem progression_postcondition_and_level_count (xs : List ℕ) :
    (processTicks xs).current_xp < (processTicks xs).xp_needed ∧
    (processTicks xs).current_level =
      1 + ((Finset.range (xs.sum + 1)).filter (fun k => thresholdAt k ≤ xs.sum)).card := by
  obtain ⟨m, heq, hpost, hmin⟩ := processTicks_spec xs
  have hcount := threshold_count_eq xs.sum m hmin hpost
  have h1 : ((Level.advance^[m] initialLevel).add_xp xs.sum).current_xp = xs.sum := by
    simp [Level.add_xp, iterate_advance_current_xp, initialLevel]
  have h2 : ((Level.advance^[m] initialLevel).add_xp xs.sum).xp_needed = thresholdAt m := rfl
  have h3 : ((Level.advance^[m] initialLevel).add_xp xs.sum).current_level = m + 1 := by
    have hl := iterate_advance_current_level m initialLevel
    have hup : ((Level.advance^[m] initialLevel).add_xp xs.sum).current_level =
        (Level.advance^[m] initialLevel).current_level := rfl
    rw [hup, hl]
    have : initialLevel.current_level = 1 := rfl
    omega
  constructor
  · rw [heq, h1, h2]
    exact hpost
  · rw [heq, h3, hcount]
    omega

/-- Concrete run used for the C2 scenario: granting 12 XP at the starting
state and running the level-up evaluation yields exactly one advance
(threshold moves 5 to 13, which exceeds 12). -/
theorem update_level_display_twelve :
    update_level_display (initialLevel.add_xp 12) =
      { current_level := 2, current_xp := 12, previous_xp_needed := 5, xp_needed := 13 } := by
  rw [update_level_display, levelUpLoop_eq_loopN]
  decide

/-- C2 counterexample: the claimed scenario fails on the code. Granting 12
XP in one tick from the starting state and running the level-up loop gives
`current_level = 2`, not 3 or higher: only one threshold (5) is crossed
because the next threshold is 5 + round(5 * 1.5) = 13 > 12. -/
theorem twelve_xp_tick_levels_to_two_not_three :
    (update_level_display (initialLevel.add_xp 12)).current_level = 2 ∧
    ¬ 3 ≤ (update_level_display (initialLevel.add_xp 12)).current_level := by
  rw [update_level_display_twelve]
  decide

/-- C2 amended: granting 12 XP in one tick from the starting state and
running the level-up evaluation processes exactly one level-up in that
single call (level goes from 1 to 2, threshold from 5 to 13), the 12 XP is
retained, and the loop postcondition holds afterward. -/
theorem twelve_xp_tick_single_level_up :
    update_level_display (initialLevel.add_xp 12) =
      { current_level := 2, current_xp := 12, previous_xp_needed := 5, xp_needed := 13 } ∧
    (update_level_display (initialLevel.add_xp 12)).current_xp <
      (update_level_display (initialLevel.add_xp 12)).xp_needed := by
  refine ⟨update_level_display_twelve, ?_⟩
  rw [update_level_display_twelve]
  decide

/-- C3: `xp_needed` strictly increases across successive `advance` calls on
every state reachable from the starting progression resource by iterating
`advance`, with the fixed multiplier 1.5 > 1. -/
theorem xp_needed_strictly_increasing (k : ℕ) :
    (Level.advance^[k] initialLevel).xp_needed <
      ((Level.advance^[k] initialLevel).advance).xp_needed := by
  have h := thresholdAt_succ_ge k
  unfold thresholdAt at h
  rw [Function.iterate_succ_apply'] at h
  omega

theorem round_mono_q {x y : ℚ} (h : x ≤ y) : round x ≤ round y := by
  rw [round_eq, round_eq]
  exact Int.floor_le_floor (by linarith)

theorem activate_higher_max_health_le {h : Health}
    (hle : h.current_health ≤ h.max_health) :
    (activate_higher_max_health h).current_health ≤
      (activate_higher_max_health h).max_health := by
  unfold activate_higher_max_health
  simp only
  have hfrac : (h.current_health : ℚ) / (h.max_health : ℚ) ≤ 1 := by
    rcases Nat.eq_zero_or_pos h.max_health with h0 | hpos
    · rw [h0]
      simp
    · rw [div_le_one (by exact_mod_cast hpos)]
      exact_mod_cast hle
  have hnn : (0 : ℚ) ≤ (h.max_health : ℚ) * 1.1 := by positivity
  have hmul : (h.max_health : ℚ) * 1.1 * ((h.current_health : ℚ) / (h.max_health : ℚ)) ≤
      (h.max_health : ℚ) * 1.1 :=
    mul_le_of_le_one_right hnn hfrac
  exact Int.toNat_le_toNat (round_mono_q hmul)

theorem applyHealthOp_le {h : Health} (hinv : h.current_health ≤ h.max_health)
    (op : HealthOp) :
    (applyHealthOp h op).current_health ≤ (applyHealthOp h op).max_health := by
  cases op with
  | enemyHit d =>
    simp only [applyHealthOp, Health.applyEnemyHit]
    omega
  | heal =>
    simp only [applyHealthOp, activate_heal]
    omega
  | regenTick a =>
    simp only [applyHealthOp, Health.regenTick]
    omega
  | higherMaxHealth =>
    exact activate_higher_max_health_le hinv

/-- C4: for every sequence of damage, heal, regen-tick and HigherMaxHealth
operations, `current_health ≤ max_health` is preserved (and `ℕ`/`u64`
values are never below 0 by type): damage saturates at 0 and heal/regen
clamp at max. -/
theorem health_invariant_preserved (ops : List HealthOp) (h : Health)
    (hinv : h.current_health ≤ h.max_health) :
    (ops.foldl applyHealthOp h).current_health ≤
      (ops.foldl applyHealthOp h).max_health := by
  induction ops generalizing h with
  | nil => exact hinv
  | cons op ops ih =>
    rw [List.foldl_cons]
    exact ih _ (applyHealthOp_le hinv op)

theorem toNat_round_close {x : ℚ} (hx : 0 ≤ x) :
    |(((round x).toNat : ℕ) : ℚ) - x| ≤ 1 / 2 := by
  have h0 : (0 : ℤ) ≤ round x := by
    have hr := round_mono_q hx
    simpa using hr
  have h2 : (((round x).toNat : ℕ) : ℚ) = ((round x : ℤ) : ℚ) := by
    exact_mod_cast Int.toNat_of_nonneg h0
  rw [h2, abs_sub_comm]
  exact abs_sub_round x

/-- C5: applying the HigherMaxHealth perk at 50/100 yields exactly 55/110,
and in general both new values are within 1/2 (nearest-integer rounding) of
max scaled by 1.1 and of the fraction-preserving rescaled current. -/
theorem higher_max_health_rescales :
    activate_higher_max_health { current_health := 50, max_health := 100 } =
      { current_health := 55, max_health := 110 } ∧
    ∀ h : Health,
      |(((activate_higher_max_health h).max_health : ℕ) : ℚ) -
          (h.max_health : ℚ) * 1.1| ≤ 1 / 2 ∧
      |(((activate_higher_max_health h).current_health : ℕ) : ℚ) -
          (h.max_health : ℚ) * 1.1 *
            ((h.current_health : ℚ) / (h.max_health : ℚ))| ≤ 1 / 2 := by
  refine ⟨?_, fun h => ⟨?_, ?_⟩⟩
  · norm_num [activate_higher_max_health]
    omega
  · have hx : (0 : ℚ) ≤ (h.max_health : ℚ) * 1.1 := by positivity
    have hb := toNat_round_close hx
    simpa [activate_higher_max_health] using hb
  · have hx : (0 : ℚ) ≤ (h.max_health : ℚ) * 1.1 *
        ((h.current_health : ℚ) / (h.max_health : ℚ)) := by positivity
    have hb := toNat_round_close hx
    simpa [activate_higher_max_health] using hb

/-- C8: acquiring UnlockGrenade and then UnlockTeleport leaves the slot as
Teleport only, with every piece of grenade state discarded: the result is
the fixed fresh Teleport value, independent of whatever the slot held
before either perk (so the two secondary actions are mutually exclusive
and acquiring one replaces any previous kind). -/
theorem unlock_teleport_replaces_grenade (sa sa' : SecondaryActionType) :
    activate_unlock_teleport (activate_unlock_grenade sa) =
      SecondaryActionType.teleport
        { isRepeating := false, duration_ms := 5000, elapsed_ms := 5000 } false 0 ∧
    activate_unlock_teleport (activate_unlock_grenade sa) =
      activate_unlock_teleport sa' :=
  ⟨rfl, rfl⟩

theorem choose_multiple_of_length_le {α : Type} (rng : ℕ → ℕ) (items : List α)
    (amount : ℕ) (h : items.length ≤ amount) :
    choose_multiple rng items amount = items := by
  unfold choose_multiple
  rw [List.drop_eq_nil_of_le h]
  simp [List.take_of_length_le h]

theorem choose_multiple_subset {α : Type} (rng : ℕ → ℕ) (items : List α)
    (amount : ℕ) : ∀ x ∈ choose_multiple rng items amount, x ∈ items := by
  unfold choose_multiple
  have hgen : ∀ (l : List (ℕ × α)) (buf : List α),
      (∀ x ∈ buf, x ∈ items) → (∀ p ∈ l, p.2 ∈ items) →
      ∀ x ∈ l.foldl
        (fun buf ix =>
          let k := rng ix.1 % (amount + ix.1 + 1)
          if k < amount then buf.set k ix.2 else buf) buf, x ∈ items := by
    intro l
    induction l with
    | nil => intro buf hbuf _ x hx; exact hbuf x hx
    | cons p l ihl =>
      intro buf hbuf hl x hx
      rw [List.foldl_cons] at hx
      refine ihl _ ?_ (fun q hq => hl q (List.mem_cons_of_mem p hq)) x hx
      intro y hy
      simp only at hy
      by_cases hk : rng p.1 % (amount + p.1 + 1) < amount
      · rw [if_pos hk] at hy
        rcases List.mem_or_eq_of_mem_set hy with hyb | hyp
        · exact hbuf y hyb
        · rw [hyp]; exact hl p (List.mem_cons_self p l)
      · rw [if_neg hk] at hy
        exact hbuf y hy
  intro x hx
  refine hgen _ _ (fun y hy => List.take_subset amount items hy) ?_ x hx
  intro p hp
  have hsnd : p.2 ∈ (items.drop amount).enum.map Prod.snd :=
    List.mem_map_of_mem Prod.snd hp
  rw [List.enum_map_snd] at hsnd
  exact List.drop_subset amount items hsnd

/-- C9: gated eligibility (LargerGrenadeExplosion needs UnlockGrenade
owned; Retaliate is one-shot) and the no-panic exhaustion behavior of the
random selection (fewer eligible than requested returns all of them). -/
theorem perk_eligibility_and_exhaustion (rng : ℕ → ℕ) (amount : ℕ)
    (owned : Finset PerkType) :
    (PerkType.LargerGrenadeExplosion ∈ validPerkTypes owned →
      PerkType.UnlockGrenade ∈ owned) ∧
    (PerkType.Retaliate ∈ owned → PerkType.Retaliate ∉ validPerkTypes owned) ∧
    ((validPerkTypes owned).length < amount →
      choose_random_perk_types rng amount owned = validPerkTypes owned) := by
  refine ⟨?_, ?_, ?_⟩
  · intro hmem
    unfold validPerkTypes at hmem
    simp only [List.mem_filter] at hmem
    have h := hmem.2
    simpa using h
  · intro howned hmem
    unfold validPerkTypes at hmem
    simp only [List.mem_filter] at hmem
    have h := hmem.2
    simp [howned] at h
  · intro h
    unfold choose_random_perk_types
    exact choose_multiple_of_length_le rng _ amount (Nat.le_of_lt h)

/-- Witness for C9: with Retaliate owned it is not eligible again, and with
no perks owned there are 10 eligible perks, so requesting 11 returns all of
them. -/
theorem perk_eligibility_and_exhaustion_witness :
    PerkType.Retaliate ∉ validPerkTypes {PerkType.Retaliate} ∧
    choose_random_perk_types id 11 ∅ = validPerkTypes ∅ :=
  ⟨(perk_eligibility_and_exhaustion id 11 {PerkType.Retaliate}).2.1 (by decide),
   (perk_eligibility_and_exhaustion id 11 ∅).2.2 (by decide)⟩

/-- C10: the random perk selection can never return UnlockGrenade (its arm
is hard-coded false), so no perk set reachable through level-ups contains
it, and consequently the grenade-gated perks LargerGrenadeExplosion and
ShorterGrenadeCooldown can never be offered either. -/
theorem unlock_grenade_never_offered :
    (∀ (rng : ℕ → ℕ) (amount : ℕ) (owned : Finset PerkType),
      PerkType.UnlockGrenade ∉ choose_random_perk_types rng amount owned) ∧
    (∀ s, ReachablePerks s → PerkType.UnlockGrenade ∉ s ∧
      ∀ (rng : ℕ → ℕ) (amount : ℕ),
        PerkType.LargerGrenadeExplosion ∉ choose_random_perk_types rng amount s ∧
        PerkType.ShorterGrenadeCooldown ∉ choose_random_perk_types rng amount s) := by
  have hnever : ∀ (rng : ℕ → ℕ) (amount : ℕ) (owned : Finset PerkType),
      PerkType.UnlockGrenade ∉ choose_random_perk_types rng amount owned := by
    intro rng amount owned hmem
    have hval := choose_multiple_subset rng (validPerkTypes owned) amount _ hmem
    unfold validPerkTypes at hval
    simp only [List.mem_filter] at hval
    exact absurd hval.2 (by simp)
  refine ⟨hnever, ?_⟩
  intro s hreach
  induction hreach with
  | init =>
    refine ⟨Finset.not_mem_empty _, ?_⟩
    intro rng amount
    constructor
    · intro hmem
      have hval := choose_multiple_subset rng _ amount _ hmem
      unfold validPerkTypes at hval
      simp only [List.mem_filter] at hval
      have := hval.2
      simp [Finset.not_mem_empty] at this
    · intro hmem
      have hval := choose_multiple_subset rng _ amount _ hmem
      unfold validPerkTypes at hval
      simp only [List.mem_filter] at hval
      have := hval.2
      simp [Finset.not_mem_empty] at this
  | step s rng amount p hr hp ih =>
    have hnot : PerkType.UnlockGrenade ∉ insert p s := by
      rw [Finset.mem_insert]
      rintro (hpe | hse)
      · exact hnever rng amount s (hpe ▸ hp)
      · exact ih.1 hse
    refine ⟨hnot, ?_⟩
    intro rng' amount'
    constructor
    · intro hmem
      have hval := choose_multiple_subset rng' _ amount' _ hmem
      unfold validPerkTypes at hval
      simp only [List.mem_filter] at hval
      have h2 := hval.2
      simp only [decide_eq_true_eq] at h2
      exact hnot (by simpa using h2)
    · intro hmem
      have hval := choose_multiple_subset rng' _ amount' _ hmem
      unfold validPerkTypes at hval
      simp only [List.mem_filter] at hval
      have h2 := hval.2
      simp only [decide_eq_true_eq] at h2
      exact hnot (by simpa using h2)

/-- Witness for C10: at the reachable empty perk set, neither UnlockGrenade
nor the grenade-gated perks are offered. -/
theorem unlock_grenade_never_offered_witness :
    PerkType.UnlockGrenade ∉ choose_random_perk_types id 3 ∅ ∧
    PerkType.LargerGrenadeExplosion ∉ choose_random_perk_types id 3 ∅ :=
  ⟨unlock_grenade_never_offered.1 id 3 ∅,
   ((unlock_grenade_never_offered.2 ∅ ReachablePerks.init).2 id 3).1⟩

theorem get_from_either_sound {T : Type} (a b : ℕ) (query : ℕ → Option T)
    (t : T) (e : ℕ) (h : get_from_either a b query = some (t, e)) :
    query e = some t := by
  unfold get_from_either at h
  cases ha : query a with
  | some x =>
    rw [ha] at h
    simp only [Option.some.injEq, Prod.mk.injEq] at h
    rw [← h.2, ha, h.1]
  | none =>
    rw [ha] at h
    cases hb : query b with
    | some x =>
      rw [hb] at h
      simp only [Option.some.injEq, Prod.mk.injEq] at h
      rw [← h.2, hb, h.1]
    | none =>
      rw [hb] at h
      simp at h

/-- Witness for C4: the invariant theorem applied to a concrete run
(damage 30, HigherMaxHealth, a regen tick, Heal from full 100/100). -/
theorem health_invariant_preserved_witness :
    (([HealthOp.enemyHit 30, HealthOp.higherMaxHealth, HealthOp.regenTick 5,
        HealthOp.heal] : List HealthOp).foldl applyHealthOp
        { current_health := 100, max_health := 100 }).current_health ≤
      (([HealthOp.enemyHit 30, HealthOp.higherMaxHealth, HealthOp.regenTick 5,
        HealthOp.heal] : List HealthOp).foldl applyHealthOp
        { current_health := 100, max_health := 100 }).max_health :=
  health_invariant_preserved _ _ (by decide)

/-- C6: an enemy-vs-sword collision event (enemy not already queued for
despawn): with the sword inactive the event has no effect at all; with it
active it queues exactly that enemy once and awards exactly its
`xp_reward`, leaving health untouched. -/
theorem sword_collision_cases (w : CombatWorld) (st : CombatState) (a b : ℕ)
    (enemy : Enemy) (e : ℕ) (sword : Sword) (s : ℕ)
    (hen : get_from_either a b w.enemies = some (enemy, e))
    (hex : get_from_either a b w.explosions = Option.none)
    (hsw : get_from_either a b w.swords = some (sword, s))
    (hq : e ∉ st.entities_to_despawn) :
    (sword.active = false →
      processEvent w st (CollisionEvent.started a b) = st) ∧
    (sword.active = true →
      (processEvent w st (CollisionEvent.started a b)).entities_to_despawn =
        st.entities_to_despawn ++ [e] ∧
      (processEvent w st (CollisionEvent.started a b)).level.current_xp =
        st.level.current_xp + enemy.xp_reward ∧
      (processEvent w st (CollisionEvent.started a b)).health = st.health) := by
  constructor
  · intro hact
    simp [processEvent, hen, hex, hsw, hq, hact]
  · intro hact
    simp [processEvent, hen, hex, hsw, hq, hact, kill_enemy, Level.add_xp]

/-- Witness for C6: the concrete enemy-sword pair; inactive sword leaves
the starting state unchanged, active sword queues enemy 1 and awards 2 XP. -/
theorem sword_collision_cases_witness :
    processEvent (swordWorld false) startingCombatState
        (CollisionEvent.started 1 2) = startingCombatState ∧
    (processEvent (swordWorld true) startingCombatState
        (CollisionEvent.started 1 2)).entities_to_despawn =
      startingCombatState.entities_to_despawn ++ [1] ∧
    (processEvent (swordWorld true) startingCombatState
        (CollisionEvent.started 1 2)).level.current_xp =
      startingCombatState.level.current_xp + 2 :=
  ⟨(sword_collision_cases (swordWorld false) startingCombatState 1 2
      { damage := 5, xp_reward := 2, max_speed := 20 } 1 { active := false } 2
      rfl rfl rfl (by decide)).1 rfl,
   ((sword_collision_cases (swordWorld true) startingCombatState 1 2
      { damage := 5, xp_reward := 2, max_speed := 20 } 1 { active := true } 2
      rfl rfl rfl (by decide)).2 rfl).1,
   ((sword_collision_cases (swordWorld true) startingCombatState 1 2
      { damage := 5, xp_reward := 2, max_speed := 20 } 1 { active := true } 2
      rfl rfl rfl (by decide)).2 rfl).2.1⟩

/-- Per-event accounting: each collision event appends only entities not
already queued (at most one), and raises XP by exactly the rewards of the
appended entities. -/
theorem processEvent_step (w : CombatWorld) (st : CombatState)
    (ev : CollisionEvent) :
    ∃ t, (processEvent w st ev).entities_to_despawn =
        st.entities_to_despawn ++ t ∧
      (∀ x ∈ t, x ∉ st.entities_to_despawn) ∧ t.Nodup ∧
      (processEvent w st ev).level.current_xp =
        st.level.current_xp + (t.map (rewardOf w)).sum := by
  cases ev with
  | stopped a b =>
    exact ⟨[], by simp [processEvent], by simp, List.nodup_nil,
      by simp [processEvent]⟩
  | started a b =>
    cases hen : get_from_either a b w.enemies with
    | none =>
      exact ⟨[], by simp [processEvent, hen], by simp, List.nodup_nil,
        by simp [processEvent, hen]⟩
    | some pe =>
      obtain ⟨enemy, e⟩ := pe
      have hrew : rewardOf w e = enemy.xp_reward := by
        rw [rewardOf, get_from_either_sound a b w.enemies enemy e hen]
      by_cases hq : e ∈ st.entities_to_despawn
      · exact ⟨[], by simp [processEvent, hen, hq], by simp, List.nodup_nil,
          by simp [processEvent, hen, hq]⟩
      · cases hex : get_from_either a b w.explosions with
        | some pex =>
          refine ⟨[e], ?_, ?_, List.nodup_singleton e, ?_⟩
          · simp [processEvent, hen, hq, hex, kill_enemy]
          · intro x hx
            rw [List.mem_singleton] at hx
            rw [hx]
            exact hq
          · simp [processEvent, hen, hq, hex, kill_enemy, Level.add_xp, hrew]
        | none =>
          cases hsw : get_from_either a b w.swords with
          | some psw =>
            obtain ⟨sword, s⟩ := psw
            by_cases hact : sword.active
            · refine ⟨[e], ?_, ?_, List.nodup_singleton e, ?_⟩
              · simp [processEvent, hen, hq, hex, hsw, hact, kill_enemy]
              · intro x hx
                rw [List.mem_singleton] at hx
                rw [hx]
                exact hq
              · simp [processEvent, hen, hq, hex, hsw, hact, kill_enemy,
                  Level.add_xp, hrew]
            · exact ⟨[], by simp [processEvent, hen, hq, hex, hsw, hact],
                by simp, List.nodup_nil,
                by simp [processEvent, hen, hq, hex, hsw, hact]⟩
          | none =>
            cases hpl : get_from_either a b w.players with
            | some ppl =>
              obtain ⟨retaliate, p⟩ := ppl
              by_cases hret : retaliate = true
              · refine ⟨[e], ?_, ?_, List.nodup_singleton e, ?_⟩
                · simp [processEvent, hen, hq, hex, hsw, hpl, hret, kill_enemy]
                · intro x hx
                  rw [List.mem_singleton] at hx
                  rw [hx]
                  exact hq
                · simp [processEvent, hen, hq, hex, hsw, hpl, hret, kill_enemy,
                    Level.add_xp, hrew]
              · exact ⟨[], by simp [processEvent, hen, hq, hex, hsw, hpl, hret],
                  by simp, List.nodup_nil,
                  by simp [processEvent, hen, hq, hex, hsw, hpl, hret]⟩
            | none =>
              exact ⟨[], by simp [processEvent, hen, hq, hex, hsw, hpl],
                by simp, List.nodup_nil,
                by simp [processEvent, hen, hq, hex, hsw, hpl]⟩

/-- Tick-level accounting: from a duplicate-free despawn queue, processing
any event list keeps the queue duplicate-free, appends each newly killed
enemy once, and raises XP by exactly the sum of the appended rewards. -/
theorem processEvents_accounting (w : CombatWorld) :
    ∀ (evs : List CollisionEvent) (st : CombatState),
    st.entities_to_despawn.Nodup →
    ∃ t, (processEvents w st evs).entities_to_despawn =
        st.entities_to_despawn ++ t ∧
      (st.entities_to_despawn ++ t).Nodup ∧
      (processEvents w st evs).level.current_xp =
        st.level.current_xp + (t.map (rewardOf w)).sum := by
  intro evs
  induction evs with
  | nil =>
    intro st h
    exact ⟨[], by simp [processEvents], by simpa using h, by simp [processEvents]⟩
  | cons ev evs ih =>
    intro st hnodup
    obtain ⟨t1, hd1, hfresh1, hnd1, hxp1⟩ := processEvent_step w st ev
    have hnodup1 : (processEvent w st ev).entities_to_despawn.Nodup := by
      rw [hd1, List.nodup_append]
      exact ⟨hnodup, hnd1, fun x hx hx1 => hfresh1 x hx1 hx⟩
    obtain ⟨t2, hd2, hnd2, hxp2⟩ := ih (processEvent w st ev) hnodup1
    have hfold : processEvents w st (ev :: evs) =
        processEvents w (processEvent w st ev) evs := by
      simp [processEvents]
    refine ⟨t1 ++ t2, ?_, ?_, ?_⟩
    · rw [hfold, hd2, hd1, List.append_assoc]
    · rw [← List.append_assoc, ← hd1]
      exact hnd2
    · rw [hfold, hxp2, hxp1, List.map_append, List.sum_append]
      omega

/-- C7: a collision event whose enemy is already in the despawn queue is
silently ignored (the state, hence XP, queue and health, is unchanged);
consequently over a whole tick's event list a duplicate-free queue stays
duplicate-free — each enemy is queued and rewarded at most once — and the
XP gained is exactly the sum of the rewards of the newly queued enemies. -/
theorem despawned_enemy_events_ignored (w : CombatWorld) (st : CombatState)
    (a b e : ℕ) (enemy : Enemy) (evs : List CollisionEvent) :
    (get_from_either a b w.enemies = some (enemy, e) →
      e ∈ st.entities_to_despawn →
      processEvent w st (CollisionEvent.started a b) = st) ∧
    (st.entities_to_despawn.Nodup →
      ∃ t, (processEvents w st evs).entities_to_despawn =
          st.entities_to_despawn ++ t ∧
        (st.entities_to_despawn ++ t).Nodup ∧
        (processEvents w st evs).level.current_xp =
          st.level.current_xp + (t.map (rewardOf w)).sum) := by
  constructor
  · intro hen hq
    simp [processEvent, hen, hq]
  · intro hnodup
    exact processEvents_accounting w evs st hnodup

/-- Witness for C7: enemy 1 already queued makes the event a no-op, and
processing the same sword hit twice in one tick from the starting state
queues enemy 1 only once and awards its reward only once. -/
theorem despawned_enemy_events_ignored_witness :
    processEvent (swordWorld true)
        { entities_to_despawn := [1]
          level := initialLevel
          health := { current_health := 100, max_health := 100 }
          slow_mo_triggered := false }
        (CollisionEvent.started 1 2) =
      { entities_to_despawn := [1]
        level := initialLevel
        health := { current_health := 100, max_health := 100 }
        slow_mo_triggered := false } ∧
    ∃ t, (processEvents (swordWorld true) startingCombatState
          [CollisionEvent.started 1 2,
           CollisionEvent.started 1 2]).entities_to_despawn =
        startingCombatState.entities_to_despawn ++ t ∧
      (startingCombatState.entities_to_despawn ++ t).Nodup ∧
      (processEvents (swordWorld true) startingCombatState
          [CollisionEvent.started 1 2,
           CollisionEvent.started 1 2]).level.current_xp =
        startingCombatState.level.current_xp +
          (t.map (rewardOf (swordWorld true))).sum :=
  ⟨(despawned_enemy_events_ignored (swordWorld true)
      { entities_to_despawn := [1]
        level := initialLevel
        health := { current_health := 100, max_health := 100 }
        slow_mo_triggered := false }
      1 2 1 { damage := 5, xp_reward := 2, max_speed := 20 } []).1 rfl (by decide),
   (despawned_enemy_events_ignored (swordWorld true) startingCombatState
      1 2 1 { damage := 5, xp_reward := 2, max_speed := 20 }
      [CollisionEvent.started 1 2, CollisionEvent.started 1 2]).2 (by decide)⟩
